import Mathlib

/-!
Verification development for the `kim-property` create/destroy core
(`src/kim_property/create.py`, `src/kim_property/destroy.py`).

The Python code is shallowly embedded: the module-level mutable globals
(`kim_properties`, `property_name_to_property_id`,
`property_id_to_property_name`, `new_property_ids`) become an explicit
`RegState` record threaded through the operations; Python dicts become
insertion-ordered association lists; raised `KIMPropertyError`/`KeyError`
exceptions become `Except` errors carrying the state at the raise point, so
that "no mutation is observable on failure" is expressible; the external
KIM-EDN codec is kept at the boundary (the operations work on decoded record
sequences, and the textual destroy entry point is parameterized by the
external decode/encode pair).
-/

namespace KimProp

/-- The Python runtime values relevant to the type checks performed by the
code (`isinstance(instance_id, int)`, `isinstance(property_name, str)`, and
the `None` default of the collection arguments). -/
inductive PyVal where
  | int (n : Int)
  | str (s : String)
  | pynone
deriving DecidableEq

/-- A decoded property-instance record: the two identity fields managed by
this core (`property-id`, `instance-id`) plus opaque extra fields that pass
through untouched. -/
structure PropertyInstanceRec where
  property_id : String
  instance_id : Int
  rest : List (String × String)
deriving DecidableEq

/-- A property definition as loaded from a file by `kim_edn.load`: its
`property-id` plus an opaque validity flag standing for the external
structural check (`check_property_definition` from `definition.py` is not
among the provided sources; the spec treats it as an opaque validator). -/
structure PropertyDefinition where
  property_id : String
  valid : Bool
deriving DecidableEq

/-- The filesystem seen by `os.path.isfile` / `kim_edn.load`: a map from
path to the definition the file holds. -/
abbrev FS := List (String × PropertyDefinition)

/-- Lookup in an insertion-ordered association list (Python dict `d[k]`,
returning the value of the first entry with the given key). -/
def dlookup {α : Type} : List (String × α) → String → Option α
  | [], _ => none
  | (k, v) :: t, key => if k = key then some v else dlookup t key

/-- Python dict membership `k in d`. -/
def dmem {α : Type} (l : List (String × α)) (k : String) : Bool :=
  (dlookup l k).isSome

/-- Python dict assignment `d[k] = v`: replace in place when the key is
present (keeping its position), append otherwise. -/
def dinsert {α : Type} : List (String × α) → String → α → List (String × α)
  | [], k, v => [(k, v)]
  | (k', v') :: t, k, v =>
    if k' = k then (k, v) :: t else (k', v') :: dinsert t k v

/-- Python dict deletion `del d[k]` (the caller checks presence; removes the
first entry with the given key). -/
def ddel {α : Type} : List (String × α) → String → List (String × α)
  | [], _ => []
  | (k', v') :: t, k => if k' = k then t else (k', v') :: ddel t k

/-- The module-level mutable registry state of `create.py`. -/
structure RegState where
  kim_properties : List (String × PropertyDefinition)
  property_name_to_property_id : List (String × String)
  property_id_to_property_name : List (String × String)
  new_property_ids : Option (List String)
deriving DecidableEq

/-- The error taxonomy of the spec; the Python code raises
`KIMPropertyError` with a distinct message at each of these sites, plus the
`KeyError` a dict subscript would raise on a missing key. -/
inductive PErr where
  | inputTypeError (which : String)
  | formatError
  | duplicateInstanceIdError
  | preexistingDefinitionError
  | unknownPropertyError (pname : String)
  | definitionInvalidError
  | decodeError
  | keyError (key : String)
deriving DecidableEq

/-- Modelled from the spec: `check_instance_id_format` lives in
`instance.py`, which is not among the provided sources; per spec §6 the
InstanceIdValidator fails with `FormatError` when the id violates the
expected numeric format, i.e. is not a positive integer. -/
def check_instance_id_format_ok (instance_id : Int) : Bool :=
  decide (0 < instance_id)

/-- Modelled from the spec: `get_property_id_path` lives in `instance.py`,
not among the provided sources; per spec §6 the IdPathResolver derives the
short name from an identifier of shape
`<scheme>:<contact>,<date>:property/<name>`, so the short name is the final
slash-separated segment (the whole identifier when no slash occurs). The
Python call site uses only the last component of the returned tuple. The
fold keeps the characters seen since the most recent slash. -/
def property_short_name (property_id : String) : String :=
  String.mk (property_id.data.foldl
    (fun acc c => if c = '/' then [] else acc ++ [c]) [])

/-- Modelled from the spec: `check_property_definition` (the
DefinitionValidator of `definition.py`, not among the provided sources) is
an opaque structural check; we read it off the definition's validity flag. -/
def check_property_definition_ok (pd : PropertyDefinition) : Bool :=
  pd.valid

/-- `unset_property_id` (create.py lines 49-70). Errors carry the state at
the raise point: `del kim_properties[pid]` happens before the
`property_id_to_property_name[pid]` subscript, so a `KeyError` there would
leave the first deletion behind, exactly as in Python. -/
def unset_property_id (property_id : String) (s : RegState) :
    Except (PErr × RegState) RegState :=
  match s.new_property_ids with
  | none => .ok s
  | some npids =>
    if property_id ∈ npids then
      if dmem s.kim_properties property_id then
        match dlookup s.property_id_to_property_name property_id with
        | none =>
          .error (.keyError property_id,
            { s with kim_properties := ddel s.kim_properties property_id })
        | some name =>
          if dmem s.property_name_to_property_id name then
            .ok { kim_properties := ddel s.kim_properties property_id
                  property_name_to_property_id :=
                    ddel s.property_name_to_property_id name
                  property_id_to_property_name :=
                    ddel s.property_id_to_property_name property_id
                  new_property_ids :=
                    if npids.erase property_id = [] then none
                    else some (npids.erase property_id) }
          else .error (.keyError name,
            { s with kim_properties := ddel s.kim_properties property_id })
      else .error (.keyError property_id, s)
    else .ok s

/-- Stable insertion of a record into a list sorted ascending by
instance-id: the new record goes after every element whose instance-id is
less than or equal to its own. -/
def insert_by_instance_id (r : PropertyInstanceRec) :
    List PropertyInstanceRec → List PropertyInstanceRec
  | [] => [r]
  | x :: t =>
    if x.instance_id ≤ r.instance_id then x :: insert_by_instance_id r t
    else r :: x :: t

/-- Left fold of stable insertions. -/
def sort_loop : List PropertyInstanceRec → List PropertyInstanceRec →
    List PropertyInstanceRec
  | acc, [] => acc
  | acc, x :: t => sort_loop (insert_by_instance_id x acc) t

/-- Stable sort ascending by instance-id, extensionally equal to Python's
`sorted(..., key=lambda i: i["instance-id"])` (a stable sort is uniquely
determined by its comparator, so any two stable sorts agree). -/
def sorted_instances (l : List PropertyInstanceRec) : List PropertyInstanceRec :=
  sort_loop [] l

/-- The common tail of `kim_property_create` (create.py lines 215-226):
append the new record and, when the collection then has more than one
record, sort it ascending by instance-id. -/
def finalize_instances (new_property_instance : PropertyInstanceRec)
    (kim_property_instances : List PropertyInstanceRec) :
    List PropertyInstanceRec :=
  if 1 < (kim_property_instances ++ [new_property_instance]).length then
    sorted_instances (kim_property_instances ++ [new_property_instance])
  else
    kim_property_instances ++ [new_property_instance]

/-- The registry mutation of the file branch (create.py lines 182-196):
insert the definition, derive the short name, extend both indices, and
record the id as dynamic (`new_property_ids` is created on first use and
appended to). -/
def register_definition (pd : PropertyDefinition) (s : RegState) : RegState :=
  { kim_properties := dinsert s.kim_properties pd.property_id pd
    property_name_to_property_id :=
      dinsert s.property_name_to_property_id
        (property_short_name pd.property_id) pd.property_id
    property_id_to_property_name :=
      dinsert s.property_id_to_property_name pd.property_id
        (property_short_name pd.property_id)
    new_property_ids := some (s.new_property_ids.getD [] ++ [pd.property_id]) }

/-- `kim_property_create` (create.py lines 73-226), at the decoded level:
`property_instances = none` is the Python `None` default, `some kpi` stands
for a collection whose external KIM-EDN decoding is the record list `kpi`.
Check order follows the source: `isinstance(instance_id, int)` (127),
`check_instance_id_format` (132), `isinstance(property_name, str)` (134),
decode and duplicate scan (138-149), then resolution: the `isfile` branch
(160-199) loads the file's definition, validates it, refuses a preexisting
id, and registers; otherwise known short name (201-202), then known full id
(203-204), else failure (205-213). -/
def kim_property_create (instance_id property_name : PyVal)
    (property_instances : Option (List PropertyInstanceRec))
    (fs : FS) (s : RegState) :
    Except (PErr × RegState) (List PropertyInstanceRec × RegState) :=
  match instance_id with
  | .str _ => .error (.inputTypeError "instance_id", s)
  | .pynone => .error (.inputTypeError "instance_id", s)
  | .int iid =>
    if check_instance_id_format_ok iid then
      match property_name with
      | .int _ => .error (.inputTypeError "property_name", s)
      | .pynone => .error (.inputTypeError "property_name", s)
      | .str pname =>
        if (property_instances.getD []).any
            (fun a => a.instance_id == iid) then
          .error (.duplicateInstanceIdError, s)
        else
          match dlookup fs pname with
          | some pd =>
            if check_property_definition_ok pd then
              if dmem s.kim_properties pd.property_id then
                .error (.preexistingDefinitionError, s)
              else
                .ok (finalize_instances
                      { property_id := pd.property_id, instance_id := iid,
                        rest := [] }
                      (property_instances.getD []),
                     register_definition pd s)
            else .error (.definitionInvalidError, s)
          | none =>
            match dlookup s.property_name_to_property_id pname with
            | some pid =>
              .ok (finalize_instances
                    { property_id := pid, instance_id := iid, rest := [] }
                    (property_instances.getD []), s)
            | none =>
              if dmem s.property_id_to_property_name pname then
                .ok (finalize_instances
                      { property_id := pname, instance_id := iid, rest := [] }
                      (property_instances.getD []), s)
              else .error (.unknownPropertyError pname, s)
    else .error (.formatError, s)

/-- The `for a_property_instance in kim_property_instances: ... remove(...)`
loop of destroy.py lines 57-61, with Python's exact iteration protocol: a
cursor index into the current (mutating) list; the body unsets the matched
record's property id and then `list.remove`s the first record equal to it;
the cursor then advances by one over the shrunk list. The fuel argument is
`l.length` at the top-level call, which strictly bounds the number of
iterations (the cursor grows by one each step while the length never
grows), so the fuel-exhausted branch coincides with the loop-exit branch. -/
def destroy_loop (target : Int) :
    Nat → Nat → List PropertyInstanceRec → RegState →
    Except (PErr × RegState) (List PropertyInstanceRec × RegState)
  | 0, _, l, s => .ok (l, s)
  | fuel + 1, i, l, s =>
    if h : i < l.length then
      if (l.get ⟨i, h⟩).instance_id = target then
        match unset_property_id (l.get ⟨i, h⟩).property_id s with
        | .ok s1 =>
          destroy_loop target fuel (i + 1) (l.erase (l.get ⟨i, h⟩)) s1
        | .error e => .error e
      else destroy_loop target fuel (i + 1) l s
    else .ok (l, s)

/-- `kim_property_destroy` on an already-decoded collection (destroy.py
lines 54-64 between the `kim_edn.loads` and `kim_edn.dumps` boundary
calls). -/
def kim_property_destroy_decoded (l : List PropertyInstanceRec)
    (instance_id : Int) (s : RegState) :
    Except (PErr × RegState) (List PropertyInstanceRec × RegState) :=
  destroy_loop instance_id l.length 0 l s

/-- `kim_property_destroy` (destroy.py lines 17-64) at the textual
boundary. The external KIM-EDN codec is passed in as the `loadsF`/`dumpsF`
pair (the codec is an external collaborator per the spec); the integer type
check (44-46) precedes the empty-sentinel check (48-52), which returns the
literal text `"[]"` without invoking the decoder. -/
def kim_property_destroy
    (loadsF : String → Option (List PropertyInstanceRec))
    (dumpsF : List PropertyInstanceRec → String)
    (property_instances : Option String) (instance_id : PyVal)
    (s : RegState) : Except (PErr × RegState) (String × RegState) :=
  match instance_id with
  | .str _ => .error (.inputTypeError "instance_id", s)
  | .pynone => .error (.inputTypeError "instance_id", s)
  | .int iid =>
    match property_instances with
    | none => .ok ("[]", s)
    | some txt =>
      if txt = "None" ∨ txt = "" ∨ txt = "[]" then .ok ("[]", s)
      else
        match loadsF txt with
        | none => .error (.decodeError, s)
        | some l =>
          match destroy_loop iid l.length 0 l s with
          | .ok (l1, s1) => .ok (dumpsF l1, s1)
          | .error e => .error e

/-! ### Concrete example data for instantiations -/

/-- A baseline property id. -/
def exPid : String := "tag:a@x.org,2024-01-01:property/alpha"

/-- A second property id sharing no name with `exPid`. -/
def exPidB : String := "tag:b@x.org,2024-01-01:property/beta"

def exDef : PropertyDefinition := { property_id := exPid, valid := true }

/-- A small registry holding one baseline definition, name `alpha`. -/
def exState : RegState :=
  { kim_properties := [(exPid, exDef)]
    property_name_to_property_id := [("alpha", exPid)]
    property_id_to_property_name := [(exPid, "alpha")]
    new_property_ids := none }

def exRecA : PropertyInstanceRec :=
  { property_id := exPid, instance_id := 1, rest := [] }

def exRecB : PropertyInstanceRec :=
  { property_id := exPidB, instance_id := 1, rest := [] }

/-- A dynamic property id. -/
def exDynPid : String := "tag:d@x.org,2024-01-01:property/delta"

/-- A registry with one baseline and one dynamically registered
definition. -/
def exStateDyn : RegState :=
  { kim_properties := [(exPid, exDef),
      (exDynPid, { property_id := exDynPid, valid := true })]
    property_name_to_property_id := [("alpha", exPid), ("delta", exDynPid)]
    property_id_to_property_name := [(exPid, "alpha"), (exDynPid, "delta")]
    new_property_ids := some [exDynPid] }

/-- A filesystem in which the path `alpha` (also a registered short name)
holds a definition file carrying the fresh id `exPidB`. -/
def exFSShadow : FS := [("alpha", { property_id := exPidB, valid := true })]

/-- The registry produced by registering `exPidB` from `exFSShadow` on top
of `exState`. -/
def exStateShadow : RegState :=
  { kim_properties := [(exPid, exDef),
      (exPidB, { property_id := exPidB, valid := true })]
    property_name_to_property_id := [("alpha", exPid), ("beta", exPidB)]
    property_id_to_property_name := [(exPid, "alpha"), (exPidB, "beta")]
    new_property_ids := some [exPidB] }

/-- A baseline id whose short name is `foo`. -/
def exPidFoo : String := "tag:a@x.org,2024-01-01:property/foo"

/-- A different id with the same derived short name `foo`. -/
def exPidFoo2 : String := "tag:b@x.org,2024-02-02:property/foo"

def exStateFoo : RegState :=
  { kim_properties := [(exPidFoo, { property_id := exPidFoo, valid := true })]
    property_name_to_property_id := [("foo", exPidFoo)]
    property_id_to_property_name := [(exPidFoo, "foo")]
    new_property_ids := none }

def exFSFoo : FS := [("f.edn", { property_id := exPidFoo2, valid := true })]

/-- The registry after registering `exPidFoo2` from `exFSFoo` on top of
`exStateFoo`: the name entry `foo` has been overwritten. -/
def exStateFoo2 : RegState :=
  { kim_properties := [(exPidFoo, { property_id := exPidFoo, valid := true }),
      (exPidFoo2, { property_id := exPidFoo2, valid := true })]
    property_name_to_property_id := [("foo", exPidFoo2)]
    property_id_to_property_name := [(exPidFoo, "foo"), (exPidFoo2, "foo")]
    new_property_ids := some [exPidFoo2] }

/-! ### Association-list lemmas (about the embedded Python dict operations) -/

theorem dlookup_cons {α : Type} (k0 : String) (v0 : α)
    (t : List (String × α)) (k : String) :
    dlookup ((k0, v0) :: t) k = if k0 = k then some v0 else dlookup t k := rfl

theorem dlookup_mem {α : Type} {l : List (String × α)} {k : String} {v : α}
    (h : dlookup l k = some v) : (k, v) ∈ l := by
  induction l with
  | nil => simp [dlookup] at h
  | cons p t ih =>
    obtain ⟨k', v'⟩ := p
    by_cases hk : k' = k
    · subst hk
      rw [dlookup_cons, if_pos rfl] at h
      simp_all
    · rw [dlookup_cons, if_neg hk] at h
      exact List.mem_cons_of_mem _ (ih h)

theorem dmem_of_mem {α : Type} {l : List (String × α)} {k : String} {v : α}
    (h : (k, v) ∈ l) : dmem l k = true := by
  induction l with
  | nil => simp at h
  | cons p t ih =>
    obtain ⟨k', v'⟩ := p
    rcases List.mem_cons.mp h with h1 | h1
    · have hk : k' = k := (congrArg Prod.fst h1.symm)
      simp [dmem, dlookup_cons, hk]
    · by_cases hk : k' = k
      · simp [dmem, dlookup_cons, hk]
      · simpa [dmem, dlookup_cons, hk] using ih h1

theorem exists_of_dmem {α : Type} {l : List (String × α)} {k : String}
    (h : dmem l k = true) : ∃ v, (k, v) ∈ l := by
  obtain ⟨v, hv⟩ := Option.isSome_iff_exists.mp h
  exact ⟨v, dlookup_mem hv⟩

theorem dmem_false_iff {α : Type} {l : List (String × α)} {k : String} :
    dmem l k = false ↔ dlookup l k = none := by
  unfold dmem
  cases dlookup l k <;> simp

theorem not_mem_keys_of_dmem_false {α : Type} {l : List (String × α)}
    {k : String} (h : dmem l k = false) : k ∉ l.map Prod.fst := by
  intro hk
  obtain ⟨⟨k', v⟩, hmem, hfst⟩ := List.mem_map.mp hk
  simp only at hfst
  subst hfst
  have hd := dmem_of_mem hmem
  rw [h] at hd
  exact Bool.noConfusion hd

theorem mem_keys_of_dmem {α : Type} {l : List (String × α)} {k : String}
    (h : dmem l k = true) : k ∈ l.map Prod.fst := by
  obtain ⟨v, hv⟩ := exists_of_dmem h
  exact List.mem_map.mpr ⟨(k, v), hv, rfl⟩

theorem dlookup_append_some {α : Type} {l l2 : List (String × α)} {k : String}
    {v : α} (h : dlookup l k = some v) : dlookup (l ++ l2) k = some v := by
  induction l with
  | nil => simp [dlookup] at h
  | cons p t ih =>
    obtain ⟨k', v'⟩ := p
    by_cases hk : k' = k
    · rw [dlookup_cons, if_pos hk] at h
      rw [List.cons_append, dlookup_cons, if_pos hk]
      exact h
    · rw [dlookup_cons, if_neg hk] at h
      rw [List.cons_append, dlookup_cons, if_neg hk]
      exact ih h

theorem dlookup_append_none {α : Type} {l l2 : List (String × α)} {k : String}
    (h : dlookup l k = none) : dlookup (l ++ l2) k = dlookup l2 k := by
  induction l with
  | nil => simp [dlookup]
  | cons p t ih =>
    obtain ⟨k', v'⟩ := p
    by_cases hk : k' = k
    · rw [dlookup_cons, if_pos hk] at h
      exact Option.noConfusion h
    · rw [dlookup_cons, if_neg hk] at h
      rw [List.cons_append, dlookup_cons, if_neg hk]
      exact ih h

theorem dinsert_eq_append {α : Type} {l : List (String × α)} {k : String}
    {v : α} (h : dmem l k = false) : dinsert l k v = l ++ [(k, v)] := by
  induction l with
  | nil => simp [dinsert]
  | cons p t ih =>
    obtain ⟨k', v'⟩ := p
    by_cases hk : k' = k
    · rw [dmem_false_iff, dlookup_cons, if_pos hk] at h
      exact Option.noConfusion h
    · rw [dmem_false_iff, dlookup_cons, if_neg hk, ← dmem_false_iff] at h
      simp only [dinsert, if_neg hk, List.cons_append, List.cons.injEq]
      exact ⟨trivial, ih h⟩

theorem dlookup_ddel_ne {α : Type} {l : List (String × α)} {k k' : String}
    (h : k' ≠ k) : dlookup (ddel l k) k' = dlookup l k' := by
  induction l with
  | nil => simp [ddel]
  | cons p t ih =>
    obtain ⟨k0, v0⟩ := p
    by_cases hk : k0 = k
    · subst hk
      have hne : k0 ≠ k' := fun hh => h (hh ▸ rfl)
      simp only [ddel, eq_self_iff_true, if_true, dlookup_cons, if_neg hne]
    · by_cases hk0 : k0 = k'
      · simp only [ddel, if_neg hk, dlookup_cons, if_pos hk0]
      · simp only [ddel, if_neg hk, dlookup_cons, if_neg hk0]
        exact ih

theorem keys_ddel_sublist {α : Type} (l : List (String × α)) (k : String) :
    ((ddel l k).map Prod.fst).Sublist (l.map Prod.fst) := by
  induction l with
  | nil => simp [ddel]
  | cons p t ih =>
    obtain ⟨k0, v0⟩ := p
    by_cases hk : k0 = k
    · simp only [ddel, if_pos hk, List.map_cons]
      exact List.sublist_cons_self _ _
    · simp only [ddel, if_neg hk, List.map_cons]
      exact List.Sublist.cons₂ _ ih

theorem nodup_keys_ddel {α : Type} {l : List (String × α)} {k : String}
    (h : (l.map Prod.fst).Nodup) : ((ddel l k).map Prod.fst).Nodup :=
  (keys_ddel_sublist l k).nodup h

theorem mem_of_mem_ddel {α : Type} {l : List (String × α)} {k : String}
    {p : String × α} (h : p ∈ ddel l k) : p ∈ l := by
  induction l with
  | nil => simp [ddel] at h
  | cons q t ih =>
    obtain ⟨k0, v0⟩ := q
    by_cases hk : k0 = k
    · simp only [ddel, if_pos hk] at h
      exact List.mem_cons_of_mem _ h
    · simp only [ddel, if_neg hk] at h
      rcases List.mem_cons.mp h with h1 | h1
      · simp [h1]
      · exact List.mem_cons_of_mem _ (ih h1)

theorem fst_ne_of_mem_ddel {α : Type} {l : List (String × α)} {k : String}
    {p : String × α} (hnd : (l.map Prod.fst).Nodup) (h : p ∈ ddel l k) :
    p.1 ≠ k := by
  induction l with
  | nil => simp [ddel] at h
  | cons q t ih =>
    obtain ⟨k0, v0⟩ := q
    simp only [List.map_cons, List.nodup_cons] at hnd
    by_cases hk : k0 = k
    · subst hk
      simp only [ddel, if_pos rfl] at h
      intro hpk
      exact hnd.1 (hpk ▸ List.mem_map.mpr ⟨p, h, rfl⟩)
    · simp only [ddel, if_neg hk] at h
      rcases List.mem_cons.mp h with h1 | h1
      · subst h1
        simpa using hk
      · exact ih hnd.2 h1

theorem dlookup_ddel_self {α : Type} {l : List (String × α)} {k : String}
    (h : (l.map Prod.fst).Nodup) : dlookup (ddel l k) k = none := by
  cases hl : dlookup (ddel l k) k with
  | none => rfl
  | some v =>
    have hmem := dlookup_mem hl
    exact absurd rfl (fst_ne_of_mem_ddel h hmem)

theorem keys_dinsert {α : Type} (l : List (String × α)) (k : String) (v : α) :
    (dinsert l k v).map Prod.fst =
      if dmem l k = true then l.map Prod.fst else l.map Prod.fst ++ [k] := by
  induction l with
  | nil => simp [dinsert, dmem, dlookup]
  | cons p t ih =>
    obtain ⟨k0, v0⟩ := p
    by_cases hk : k0 = k
    · subst hk
      simp only [dinsert, eq_self_iff_true, if_true, List.map_cons]
      have : dmem ((k0, v0) :: t) k0 = true := by
        simp [dmem, dlookup_cons]
      rw [if_pos this]
    · have hdm : dmem ((k0, v0) :: t) k = dmem t k := by
        simp [dmem, dlookup_cons, hk]
      simp only [dinsert, if_neg hk, List.map_cons, ih, hdm]
      by_cases h2 : dmem t k = true
      · rw [if_pos h2, if_pos h2]
      · rw [if_neg h2, if_neg h2, List.cons_append]

theorem nodup_keys_dinsert {α : Type} {l : List (String × α)} {k : String}
    {v : α} (h : (l.map Prod.fst).Nodup) :
    ((dinsert l k v).map Prod.fst).Nodup := by
  rw [keys_dinsert]
  by_cases hm : dmem l k = true
  · simpa [hm] using h
  · rw [if_neg hm]
    have hk : k ∉ l.map Prod.fst :=
      not_mem_keys_of_dmem_false (Bool.not_eq_true _ ▸ hm)
    exact (List.perm_append_singleton k _).nodup_iff.mpr
      (List.nodup_cons.mpr ⟨hk, h⟩)

/-! ### Stable-sort lemmas -/

theorem insert_by_instance_id_perm (r : PropertyInstanceRec)
    (l : List PropertyInstanceRec) :
    (insert_by_instance_id r l).Perm (r :: l) := by
  induction l with
  | nil => simp [insert_by_instance_id]
  | cons x t ih =>
    by_cases hx : x.instance_id ≤ r.instance_id
    · simp only [insert_by_instance_id, if_pos hx]
      exact (ih.cons x).trans (List.Perm.swap r x t)
    · simp [insert_by_instance_id, if_neg hx]

theorem mem_insert_by_instance_id {r x : PropertyInstanceRec}
    {l : List PropertyInstanceRec} (h : x ∈ insert_by_instance_id r l) :
    x = r ∨ x ∈ l := by
  have := (insert_by_instance_id_perm r l).mem_iff.mp h
  simpa using this

theorem insert_by_instance_id_pairwise {r : PropertyInstanceRec}
    {l : List PropertyInstanceRec}
    (h : l.Pairwise (fun a b => a.instance_id ≤ b.instance_id)) :
    (insert_by_instance_id r l).Pairwise
      (fun a b => a.instance_id ≤ b.instance_id) := by
  induction l with
  | nil => simp [insert_by_instance_id]
  | cons x t ih =>
    simp only [List.pairwise_cons] at h
    by_cases hx : x.instance_id ≤ r.instance_id
    · simp only [insert_by_instance_id, if_pos hx, List.pairwise_cons]
      refine ⟨?_, ih h.2⟩
      intro y hy
      rcases mem_insert_by_instance_id hy with h1 | h1
      · exact h1 ▸ hx
      · exact h.1 y h1
    · simp only [insert_by_instance_id, if_neg hx, List.pairwise_cons]
      have hrx : r.instance_id ≤ x.instance_id := le_of_not_le hx
      refine ⟨?_, ?_, h.2⟩
      · intro y hy
        rcases List.mem_cons.mp hy with h1 | h1
        · exact h1 ▸ hrx
        · exact le_trans hrx (h.1 y h1)
      · exact h.1

theorem sort_loop_perm (l : List PropertyInstanceRec) :
    ∀ acc, (sort_loop acc l).Perm (acc ++ l) := by
  induction l with
  | nil => intro acc; simp [sort_loop]
  | cons x t ih =>
    intro acc
    have h1 : (sort_loop (insert_by_instance_id x acc) t).Perm
        (insert_by_instance_id x acc ++ t) := ih _
    have h2 : (insert_by_instance_id x acc ++ t).Perm ((x :: acc) ++ t) :=
      (insert_by_instance_id_perm x acc).append_right t
    have h3 : ((x :: acc) ++ t).Perm (acc ++ x :: t) := by
      simpa using List.perm_middle.symm
    exact (h1.trans h2).trans h3

theorem sort_loop_pairwise (l : List PropertyInstanceRec) :
    ∀ acc, acc.Pairwise (fun a b => a.instance_id ≤ b.instance_id) →
    (sort_loop acc l).Pairwise (fun a b => a.instance_id ≤ b.instance_id) := by
  induction l with
  | nil => intro acc h; simpa [sort_loop] using h
  | cons x t ih =>
    intro acc h
    exact ih _ (insert_by_instance_id_pairwise h)

theorem sorted_instances_perm (l : List PropertyInstanceRec) :
    (sorted_instances l).Perm l := by
  simpa using sort_loop_perm l []

theorem sorted_instances_pairwise (l : List PropertyInstanceRec) :
    (sorted_instances l).Pairwise (fun a b => a.instance_id ≤ b.instance_id) :=
  sort_loop_pairwise l [] (by simp)

theorem finalize_instances_perm (r : PropertyInstanceRec)
    (kpi : List PropertyInstanceRec) :
    (finalize_instances r kpi).Perm (kpi ++ [r]) := by
  unfold finalize_instances
  split
  · exact sorted_instances_perm _
  · exact List.Perm.refl _

theorem finalize_instances_pairwise (r : PropertyInstanceRec)
    (kpi : List PropertyInstanceRec) :
    (finalize_instances r kpi).Pairwise
      (fun a b => a.instance_id ≤ b.instance_id) := by
  unfold finalize_instances
  split
  · exact sorted_instances_pairwise _
  · rename_i hlen
    have hk : kpi = [] := by
      cases kpi with
      | nil => rfl
      | cons a t =>
        exact absurd (by
          simp only [List.cons_append, List.length_cons, List.length_append]
          omega) hlen
    simp [hk]

theorem self_mem_finalize (r : PropertyInstanceRec)
    (kpi : List PropertyInstanceRec) : r ∈ finalize_instances r kpi :=
  (finalize_instances_perm r kpi).mem_iff.mpr (by simp)

/-! ### The registry consistency invariant -/

theorem dmem_ddel_ne {α : Type} {l : List (String × α)} {k k' : String}
    (h : k' ≠ k) : dmem (ddel l k) k' = dmem l k' := by
  unfold dmem
  rw [dlookup_ddel_ne h]

theorem dmem_append {α : Type} (l l2 : List (String × α)) (k : String) :
    dmem (l ++ l2) k = (dmem l k || dmem l2 k) := by
  unfold dmem
  cases hl : dlookup l k with
  | none => rw [dlookup_append_none hl]; simp
  | some v => rw [dlookup_append_some hl]; simp

/-- The registry data-model invariant (spec §3): the two indices are
mutually consistent with the registry — the id side of the id→name index
coincides with the registered ids, name→id and id→name are mutually
inverse — the dynamic set is a duplicate-free subset of the registered
ids, and all three dict key sets are duplicate-free (as they are for any
Python dict). -/
def RegInv (s : RegState) : Prop :=
  (s.kim_properties.map Prod.fst).Nodup ∧
  (s.property_name_to_property_id.map Prod.fst).Nodup ∧
  (s.property_id_to_property_name.map Prod.fst).Nodup ∧
  (s.new_property_ids.getD []).Nodup ∧
  (∀ p ∈ s.kim_properties,
    dmem s.property_id_to_property_name p.1 = true) ∧
  (∀ p ∈ s.property_id_to_property_name,
    dmem s.kim_properties p.1 = true) ∧
  (∀ p ∈ s.property_name_to_property_id,
    dlookup s.property_id_to_property_name p.2 = some p.1) ∧
  (∀ p ∈ s.property_id_to_property_name,
    dlookup s.property_name_to_property_id p.2 = some p.1) ∧
  (∀ q ∈ s.new_property_ids.getD [], dmem s.kim_properties q = true)

/-- Running `unset_property_id` on an id outside the dynamic set is the
identity on the state and raises nothing. -/
theorem unset_not_dynamic {pid : String} {s : RegState}
    (h : pid ∉ s.new_property_ids.getD []) :
    unset_property_id pid s = .ok s := by
  cases hnp : s.new_property_ids with
  | none => simp [unset_property_id, hnp]
  | some npids =>
    rw [hnp] at h
    simp only [Option.getD_some] at h
    simp [unset_property_id, hnp, h]

/-- Running `unset_property_id` on a dynamic id present in the registry
and both indices: the success state with all four removals. -/
theorem unset_run_of_member {pid : String} {s : RegState}
    {npids : List String} {name : String}
    (hnp : s.new_property_ids = some npids) (hm : pid ∈ npids)
    (hkp : dmem s.kim_properties pid = true)
    (hname : dlookup s.property_id_to_property_name pid = some name)
    (hn2i : dmem s.property_name_to_property_id name = true) :
    unset_property_id pid s = .ok
      { kim_properties := ddel s.kim_properties pid
        property_name_to_property_id := ddel s.property_name_to_property_id name
        property_id_to_property_name := ddel s.property_id_to_property_name pid
        new_property_ids :=
          if npids.erase pid = [] then none
          else some (npids.erase pid) } := by
  simp only [unset_property_id, hnp]
  rw [if_pos hm, if_pos hkp]
  simp only [hname]
  rw [if_pos hn2i]

theorem unset_preserves_RegInv (pid : String) (s : RegState) (h : RegInv s) :
    ∃ s', unset_property_id pid s = .ok s' ∧ RegInv s' := by
  by_cases hdyn : pid ∈ s.new_property_ids.getD []
  case neg => exact ⟨s, unset_not_dynamic hdyn, h⟩
  case pos =>
    obtain ⟨h1, h2, h3, h4, h5, h6, h7, h8, h9⟩ := h
    cases hnp : s.new_property_ids with
    | none => rw [hnp] at hdyn; simp at hdyn
    | some npids =>
      have hm : pid ∈ npids := by rw [hnp] at hdyn; simpa using hdyn
      have h4' : npids.Nodup := by rw [hnp] at h4; simpa using h4
      have hkp : dmem s.kim_properties pid = true := h9 pid hdyn
      have hi2n : dmem s.property_id_to_property_name pid = true := by
        obtain ⟨v, hv⟩ := exists_of_dmem hkp
        exact h5 (pid, v) hv
      obtain ⟨name, hname⟩ := Option.isSome_iff_exists.mp hi2n
      have hn2i_lookup : dlookup s.property_name_to_property_id name = some pid :=
        h8 (pid, name) (dlookup_mem hname)
      have hn2i : dmem s.property_name_to_property_id name = true := by
        simp [dmem, hn2i_lookup]
      refine ⟨_, unset_run_of_member hnp hm hkp hname hn2i, ?_,
        ?_, ?_, ?_, ?_, ?_, ?_, ?_, ?_⟩
      · exact nodup_keys_ddel h1
      · exact nodup_keys_ddel h2
      · exact nodup_keys_ddel h3
      · by_cases he : npids.erase pid = [] <;> simp [he]
        exact h4'.erase pid
      · intro p hp
        have hpl := mem_of_mem_ddel hp
        have hpne := fst_ne_of_mem_ddel h1 hp
        rw [dmem_ddel_ne hpne]
        exact h5 p hpl
      · intro p hp
        have hpl := mem_of_mem_ddel hp
        have hpne := fst_ne_of_mem_ddel h3 hp
        rw [dmem_ddel_ne hpne]
        exact h6 p hpl
      · intro p hp
        have hpl := mem_of_mem_ddel hp
        have hpne := fst_ne_of_mem_ddel h2 hp
        have horig := h7 p hpl
        have hsnd : p.2 ≠ pid := by
          intro hc
          rw [hc, hname] at horig
          exact hpne (Option.some.injEq .. ▸ horig.symm ▸ rfl)
        rw [dlookup_ddel_ne hsnd]
        exact horig
      · intro p hp
        have hpl := mem_of_mem_ddel hp
        have hpne := fst_ne_of_mem_ddel h3 hp
        have horig := h8 p hpl
        have hsnd : p.2 ≠ name := by
          intro hc
          rw [hc, hn2i_lookup] at horig
          exact hpne (Option.some.injEq .. ▸ horig.symm ▸ rfl)
        rw [dlookup_ddel_ne hsnd]
        exact horig
      · intro q hq
        by_cases he : npids.erase pid = [] <;> simp [he] at hq
        have hqe : q ∈ npids.erase pid := by simpa [he] using hq
        have hqn : q ≠ pid ∧ q ∈ npids := (h4'.mem_erase_iff).mp hqe
        rw [dmem_ddel_ne hqn.1]
        exact h9 q (by rw [hnp]; simpa using hqn.2)

/-- The destroy loop, started in a consistent state, never raises and
preserves the invariant. -/
theorem destroy_loop_preserves_RegInv (target : Int) :
    ∀ fuel i l s, RegInv s →
    ∃ l' s', destroy_loop target fuel i l s = .ok (l', s') ∧ RegInv s' := by
  intro fuel
  induction fuel with
  | zero =>
    intro i l s h
    exact ⟨l, s, rfl, h⟩
  | succ n ih =>
    intro i l s h
    by_cases hi : i < l.length
    · by_cases hx : (l.get ⟨i, hi⟩).instance_id = target
      · obtain ⟨s1, hrun, hinv1⟩ :=
          unset_preserves_RegInv (l.get ⟨i, hi⟩).property_id s h
        obtain ⟨l', s', hrec, hinv'⟩ :=
          ih (i + 1) (l.erase (l.get ⟨i, hi⟩)) s1 hinv1
        refine ⟨l', s', ?_, hinv'⟩
        simp only [destroy_loop, dif_pos hi, if_pos hx, hrun]
        exact hrec
      · obtain ⟨l', s', hrec, hinv'⟩ := ih (i + 1) l s h
        refine ⟨l', s', ?_, hinv'⟩
        simp only [destroy_loop, dif_pos hi, if_neg hx]
        exact hrec
    · refine ⟨l, s, ?_, h⟩
      simp only [destroy_loop, dif_neg hi]

/-! ### Inversion lemmas for `kim_property_create` -/

/-- Every failing run of `kim_property_create` returns the entry state
unchanged: all checks precede the single registry write, which cannot
fail afterwards. -/
theorem create_error_state {iidv pnv : PyVal}
    {pio : Option (List PropertyInstanceRec)} {fs : FS} {s : RegState}
    {e : PErr} {s' : RegState}
    (h : kim_property_create iidv pnv pio fs s = .error (e, s')) : s' = s := by
  unfold kim_property_create at h
  repeat' split at h
  all_goals simp_all

/-- Every successful run of `kim_property_create` produces exactly the
finalized (appended, conditionally sorted) collection for some resolved
property id. -/
theorem create_ok_shape {iidv pnv : PyVal}
    {pio : Option (List PropertyInstanceRec)} {fs : FS} {s : RegState}
    {out : List PropertyInstanceRec} {s' : RegState}
    (h : kim_property_create iidv pnv pio fs s = .ok (out, s')) :
    ∃ iid pid, iidv = PyVal.int iid ∧
      out = finalize_instances
        { property_id := pid, instance_id := iid, rest := [] } (pio.getD []) := by
  unfold kim_property_create at h
  repeat' split at h
  all_goals simp_all
  all_goals exact ⟨_, h.1.symm⟩

/-- Every successful run of `kim_property_create` either leaves the
registry state untouched (name/id resolution) or registers the definition
loaded from an existing file whose id was not yet registered. -/
theorem create_ok_state {iidv pnv : PyVal}
    {pio : Option (List PropertyInstanceRec)} {fs : FS} {s : RegState}
    {out : List PropertyInstanceRec} {s' : RegState}
    (h : kim_property_create iidv pnv pio fs s = .ok (out, s')) :
    s' = s ∨ ∃ pname pd, pnv = PyVal.str pname ∧ dlookup fs pname = some pd ∧
      dmem s.kim_properties pd.property_id = false ∧
      s' = register_definition pd s := by
  unfold kim_property_create at h
  repeat' split at h
  all_goals simp_all

theorem register_preserves_RegInv {pd : PropertyDefinition} {s : RegState}
    (h : RegInv s)
    (hfresh : dmem s.kim_properties pd.property_id = false)
    (hname : dmem s.property_name_to_property_id
      (property_short_name pd.property_id) = false) :
    RegInv (register_definition pd s) := by
  obtain ⟨h1, h2, h3, h4, h5, h6, h7, h8, h9⟩ := h
  have hi2nf : dmem s.property_id_to_property_name pd.property_id = false := by
    cases hh : dmem s.property_id_to_property_name pd.property_id
    · rfl
    · obtain ⟨v, hv⟩ := exists_of_dmem hh
      have hc := h6 (pd.property_id, v) hv
      rw [hfresh] at hc
      exact Bool.noConfusion hc
  have e1 : dinsert s.kim_properties pd.property_id pd =
      s.kim_properties ++ [(pd.property_id, pd)] := dinsert_eq_append hfresh
  have e2 : dinsert s.property_name_to_property_id
        (property_short_name pd.property_id) pd.property_id =
      s.property_name_to_property_id ++
        [(property_short_name pd.property_id, pd.property_id)] :=
    dinsert_eq_append hname
  have e3 : dinsert s.property_id_to_property_name pd.property_id
        (property_short_name pd.property_id) =
      s.property_id_to_property_name ++
        [(pd.property_id, property_short_name pd.property_id)] :=
    dinsert_eq_append hi2nf
  have hnotdyn : pd.property_id ∉ s.new_property_ids.getD [] := by
    intro hc
    have := h9 pd.property_id hc
    rw [hfresh] at this
    exact Bool.noConfusion this
  refine ⟨?_, ?_, ?_, ?_, ?_, ?_, ?_, ?_, ?_⟩ <;>
    simp only [register_definition, e1, e2, e3, Option.getD_some]
  · rw [List.map_append]
    exact (List.perm_append_singleton _ _).nodup_iff.mpr
      (List.nodup_cons.mpr ⟨not_mem_keys_of_dmem_false hfresh, h1⟩)
  · rw [List.map_append]
    exact (List.perm_append_singleton _ _).nodup_iff.mpr
      (List.nodup_cons.mpr ⟨not_mem_keys_of_dmem_false hname, h2⟩)
  · rw [List.map_append]
    exact (List.perm_append_singleton _ _).nodup_iff.mpr
      (List.nodup_cons.mpr ⟨not_mem_keys_of_dmem_false hi2nf, h3⟩)
  · exact (List.perm_append_singleton _ _).nodup_iff.mpr
      (List.nodup_cons.mpr ⟨hnotdyn, h4⟩)
  · intro p hp
    rcases List.mem_append.mp hp with hp1 | hp1
    · rw [dmem_append, h5 p hp1]
      rfl
    · have hpe : p = (pd.property_id, pd) := by simpa using hp1
      subst hpe
      rw [dmem_append]
      have : dmem [(pd.property_id, property_short_name pd.property_id)]
          pd.property_id = true := by simp [dmem, dlookup]
      rw [this]
      simp
  · intro p hp
    rcases List.mem_append.mp hp with hp1 | hp1
    · rw [dmem_append, h6 p hp1]
      rfl
    · have hpe : p = (pd.property_id, property_short_name pd.property_id) := by
        simpa using hp1
      subst hpe
      rw [dmem_append]
      have : dmem [(pd.property_id, pd)] pd.property_id = true := by
        simp [dmem, dlookup]
      rw [this]
      simp
  · intro p hp
    rcases List.mem_append.mp hp with hp1 | hp1
    · exact dlookup_append_some (h7 p hp1)
    · have hpe : p = (property_short_name pd.property_id, pd.property_id) := by
        simpa using hp1
      subst hpe
      rw [dlookup_append_none (dmem_false_iff.mp hi2nf)]
      simp [dlookup]
  · intro p hp
    rcases List.mem_append.mp hp with hp1 | hp1
    · exact dlookup_append_some (h8 p hp1)
    · have hpe : p = (pd.property_id, property_short_name pd.property_id) := by
        simpa using hp1
      subst hpe
      rw [dlookup_append_none (dmem_false_iff.mp hname)]
      simp [dlookup]
  · intro q hq
    rcases List.mem_append.mp hq with hq1 | hq1
    · rw [dmem_append, h9 q hq1]
      rfl
    · have hqe : q = pd.property_id := by simpa using hq1
      subst hqe
      rw [dmem_append]
      have : dmem [(pd.property_id, pd)] pd.property_id = true := by
        simp [dmem, dlookup]
      rw [this]
      simp


/-! ### The claims -/

/-- C1: code-bug evidence. The spec requires DestroyOperation to exclude
every record whose instance-id equals the argument, including adjacent
matches in a malformed input. The code removes from the list while
iterating it, so on the two adjacent matching records below the second one
is skipped and survives, still carrying the matched instance-id 1. -/
theorem destroy_inplace_removal_skips_adjacent_match :
    kim_property_destroy_decoded [exRecA, exRecB] 1 exState =
      .ok ([exRecB], exState) ∧ exRecB.instance_id = 1 :=
  ⟨rfl, rfl⟩

/-- C2: for every decoded collection already containing a record with the
given (valid) instance-id, create fails with the duplicate-instance-id
error and returns the registry state unchanged: the duplicate check
precedes every registry write. -/
theorem create_duplicate_instance_id_fails_unchanged
    (i : Int) (p : String) (C : List PropertyInstanceRec) (fs : FS)
    (s : RegState) (h1 : 0 < i) (hdup : ∃ a ∈ C, a.instance_id = i) :
    kim_property_create (.int i) (.str p) (some C) fs s =
      .error (.duplicateInstanceIdError, s) := by
  have hfmt : check_instance_id_format_ok i = true := decide_eq_true h1
  have hany : (C.any fun a => a.instance_id == i) = true := by
    rw [List.any_eq_true]
    obtain ⟨a, ha, he⟩ := hdup
    exact ⟨a, ha, by simpa using he⟩
  simp [kim_property_create, hfmt, hany]

theorem create_duplicate_instance_id_fails_unchanged_witness :
    kim_property_create (.int 1) (.str "alpha") (some [exRecA]) [] exState =
      .error (.duplicateInstanceIdError, exState) :=
  create_duplicate_instance_id_fails_unchanged 1 "alpha" [exRecA] [] exState
    (by decide) ⟨exRecA, by decide, rfl⟩

/-- C3: when the property reference names an existing file whose loaded,
valid definition carries a property-id already registered, create fails
with the preexisting-definition error, the registry state is returned
exactly as it was, and no instance record is produced. -/
theorem create_preexisting_definition_fails_unchanged
    (i : Int) (p : String) (pio : Option (List PropertyInstanceRec))
    (fs : FS) (s : RegState) (pd : PropertyDefinition)
    (h1 : 0 < i) (hnodup : ∀ a ∈ pio.getD [], a.instance_id ≠ i)
    (hfile : dlookup fs p = some pd)
    (hvalid : check_property_definition_ok pd = true)
    (hpre : dmem s.kim_properties pd.property_id = true) :
    kim_property_create (.int i) (.str p) pio fs s =
      .error (.preexistingDefinitionError, s) := by
  have hfmt : check_instance_id_format_ok i = true := decide_eq_true h1
  have hany : ((pio.getD []).any fun a => a.instance_id == i) = false := by
    simp only [List.any_eq_false]
    intro a ha
    simpa using hnodup a ha
  simp [kim_property_create, hfmt, hany, hfile, hvalid, hpre]

theorem create_preexisting_definition_fails_unchanged_witness :
    kim_property_create (.int 1) (.str "newdef.edn") none
      [("newdef.edn", { property_id := exPid, valid := true })] exState =
      .error (.preexistingDefinitionError, exState) :=
  create_preexisting_definition_fails_unchanged 1 "newdef.edn" none
    [("newdef.edn", { property_id := exPid, valid := true })] exState
    { property_id := exPid, valid := true }
    (by decide) (by simp) rfl rfl rfl

/-- C4: every successful create on a decoded collection C produces exactly
C plus one new record carrying the requested instance-id (a permutation:
no existing record is modified or dropped), and the output is ordered
ascending by instance-id. -/
theorem create_appends_new_record_and_orders
    (iidv pnv : PyVal) (C : List PropertyInstanceRec) (fs : FS)
    (s : RegState) (out : List PropertyInstanceRec) (s1 : RegState)
    (h : kim_property_create iidv pnv (some C) fs s = .ok (out, s1)) :
    ∃ iid pid, iidv = PyVal.int iid ∧
      out.Perm (C ++ [{ property_id := pid, instance_id := iid, rest := [] }]) ∧
      out.Pairwise (fun a b => a.instance_id ≤ b.instance_id) := by
  obtain ⟨iid, pid, hv, hout⟩ := create_ok_shape h
  subst hout
  refine ⟨iid, pid, hv, ?_, finalize_instances_pairwise _ _⟩
  simpa using finalize_instances_perm
    { property_id := pid, instance_id := iid, rest := [] } C

theorem create_appends_new_record_and_orders_witness :
    ∃ iid pid, (PyVal.int 1 : PyVal) = PyVal.int iid ∧
      List.Perm
        ([{ property_id := exPid, instance_id := 1, rest := [] },
          { property_id := "q", instance_id := 3, rest := [] }] :
          List PropertyInstanceRec)
        (([{ property_id := "q", instance_id := 3, rest := [] }] :
          List PropertyInstanceRec) ++
          [{ property_id := pid, instance_id := iid, rest := [] }]) ∧
      List.Pairwise (fun a b => a.instance_id ≤ b.instance_id)
        ([{ property_id := exPid, instance_id := 1, rest := [] },
          { property_id := "q", instance_id := 3, rest := [] }] :
          List PropertyInstanceRec) :=
  create_appends_new_record_and_orders (.int 1) (.str "alpha")
    [{ property_id := "q", instance_id := 3, rest := [] }] [] exState
    [{ property_id := exPid, instance_id := 1, rest := [] },
     { property_id := "q", instance_id := 3, rest := [] }] exState rfl

/-- C5: the property reference is resolved by trying, in this order with
the first match winning: an existing file (even when the reference is also
a known name), a known short name, a known property-id; when none of the
three applies the operation fails with the unknown-property error. -/
theorem create_resolution_order
    (i : Int) (p : String) (pio : Option (List PropertyInstanceRec))
    (fs : FS) (s : RegState)
    (h1 : 0 < i) (hnodup : ∀ a ∈ pio.getD [], a.instance_id ≠ i) :
    (∀ pd, dlookup fs p = some pd → check_property_definition_ok pd = true →
      dmem s.kim_properties pd.property_id = false →
      ∃ out s1, kim_property_create (.int i) (.str p) pio fs s =
          .ok (out, s1) ∧
        ({ property_id := pd.property_id, instance_id := i, rest := [] } :
          PropertyInstanceRec) ∈ out) ∧
    (∀ pid, dlookup fs p = none →
      dlookup s.property_name_to_property_id p = some pid →
      ∃ out, kim_property_create (.int i) (.str p) pio fs s = .ok (out, s) ∧
        ({ property_id := pid, instance_id := i, rest := [] } :
          PropertyInstanceRec) ∈ out) ∧
    (dlookup fs p = none →
      dlookup s.property_name_to_property_id p = none →
      dmem s.property_id_to_property_name p = true →
      ∃ out, kim_property_create (.int i) (.str p) pio fs s = .ok (out, s) ∧
        ({ property_id := p, instance_id := i, rest := [] } :
          PropertyInstanceRec) ∈ out) ∧
    (dlookup fs p = none →
      dlookup s.property_name_to_property_id p = none →
      dmem s.property_id_to_property_name p = false →
      kim_property_create (.int i) (.str p) pio fs s =
        .error (.unknownPropertyError p, s)) := by
  have hfmt : check_instance_id_format_ok i = true := decide_eq_true h1
  have hany : ((pio.getD []).any fun a => a.instance_id == i) = false := by
    simp only [List.any_eq_false]
    intro a ha
    simpa using hnodup a ha
  refine ⟨?_, ?_, ?_, ?_⟩
  · intro pd hpd hvalid hfree
    refine ⟨finalize_instances
        { property_id := pd.property_id, instance_id := i, rest := [] }
        (pio.getD []), register_definition pd s, ?_, self_mem_finalize _ _⟩
    simp [kim_property_create, hfmt, hany, hpd, hvalid, hfree]
  · intro pid hnof hlk
    refine ⟨finalize_instances
        { property_id := pid, instance_id := i, rest := [] }
        (pio.getD []), ?_, self_mem_finalize _ _⟩
    simp [kim_property_create, hfmt, hany, hnof, hlk]
  · intro hnof hlk hid
    refine ⟨finalize_instances
        { property_id := p, instance_id := i, rest := [] }
        (pio.getD []), ?_, self_mem_finalize _ _⟩
    simp [kim_property_create, hfmt, hany, hnof, hlk, hid]
  · intro hnof hlk hid
    simp [kim_property_create, hfmt, hany, hnof, hlk, hid]

theorem create_resolution_order_witness :
    kim_property_create (.int 3) (.str "nope") none [] exState =
      .error (.unknownPropertyError "nope", exState) :=
  (create_resolution_order 3 "nope" none [] exState (by decide)
    (by simp)).2.2.2 rfl rfl rfl

/-- C6: every one of the four empty-sentinel inputs of destroy (`None`,
the text "None", the empty text, the empty-list text), with any integer
instance-id, returns the canonical empty-collection text immediately: no
decode is performed (the result holds for every decoder) and the registry
state is handed back untouched. -/
theorem destroy_empty_sentinels_return_empty
    (loadsF : String → Option (List PropertyInstanceRec))
    (dumpsF : List PropertyInstanceRec → String) (i : Int) (s : RegState) :
    kim_property_destroy loadsF dumpsF none (.int i) s = .ok ("[]", s) ∧
    kim_property_destroy loadsF dumpsF (some "None") (.int i) s =
      .ok ("[]", s) ∧
    kim_property_destroy loadsF dumpsF (some "") (.int i) s =
      .ok ("[]", s) ∧
    kim_property_destroy loadsF dumpsF (some "[]") (.int i) s =
      .ok ("[]", s) :=
  ⟨rfl, rfl, rfl, rfl⟩

/-- C7 (amended): for a valid instance-id and a reference that is a known
short name or known property-id and does not name an existing file,
creating from an absent collection yields exactly the one new record with
the resolved id, and the registry state is returned unchanged. -/
theorem create_known_reference_none_single_record
    (i : Int) (p : String) (fs : FS) (s : RegState) (pid : String)
    (h1 : 0 < i) (hnofile : dlookup fs p = none)
    (hres : dlookup s.property_name_to_property_id p = some pid ∨
      (dlookup s.property_name_to_property_id p = none ∧ pid = p ∧
       dmem s.property_id_to_property_name p = true)) :
    kim_property_create (.int i) (.str p) none fs s =
      .ok ([{ property_id := pid, instance_id := i, rest := [] }], s) := by
  have hfmt : check_instance_id_format_ok i = true := decide_eq_true h1
  rcases hres with hname | ⟨hnone, hpp, hid⟩
  · simp [kim_property_create, hfmt, hnofile, hname, finalize_instances]
  · subst hpp
    simp [kim_property_create, hfmt, hnofile, hnone, hid, finalize_instances]

theorem create_known_reference_none_single_record_witness :
    kim_property_create (.int 5) (.str "alpha") none [] exState =
      .ok ([{ property_id := exPid, instance_id := 5, rest := [] }],
        exState) :=
  create_known_reference_none_single_record 5 "alpha" [] exState exPid
    (by decide) rfl (Or.inl rfl)

/-- C7 counterexample: the claim as stated fails when the known short name
also names an existing file — the file branch wins (spec resolution order),
the created record carries the file's id rather than the name lookup, and
the registry is mutated, contradicting "the registry is unchanged by the
call". -/
theorem create_known_name_shadowed_by_file_counterexample :
    kim_property_create (.int 1) (.str "alpha") none exFSShadow exState =
      .ok ([{ property_id := exPidB, instance_id := 1, rest := [] }],
        exStateShadow) ∧
    exStateShadow ≠ exState ∧
    dlookup exState.property_name_to_property_id "alpha" = some exPid ∧
    exPidB ≠ exPid :=
  ⟨rfl, by decide, rfl, by decide⟩

/-- C8: unregistering a property-id that is not in the dynamic set is a
silent no-op returning the state unchanged; unregistering a member (in a
state satisfying the data model: the id is registered and indexed) removes
it from the registry, both indices, and the dynamic set. -/
theorem unset_property_id_noop_or_removes (pid : String) (s : RegState) :
    (pid ∉ s.new_property_ids.getD [] → unset_property_id pid s = .ok s) ∧
    (∀ npids name, s.new_property_ids = some npids → pid ∈ npids →
      npids.Nodup →
      (s.kim_properties.map Prod.fst).Nodup →
      (s.property_name_to_property_id.map Prod.fst).Nodup →
      (s.property_id_to_property_name.map Prod.fst).Nodup →
      dmem s.kim_properties pid = true →
      dlookup s.property_id_to_property_name pid = some name →
      dmem s.property_name_to_property_id name = true →
      ∃ s1, unset_property_id pid s = .ok s1 ∧
        dmem s1.kim_properties pid = false ∧
        dmem s1.property_id_to_property_name pid = false ∧
        dmem s1.property_name_to_property_id name = false ∧
        pid ∉ s1.new_property_ids.getD []) := by
  constructor
  · exact fun h => unset_not_dynamic h
  · intro npids name hnp hm hnd hnd1 hnd2 hnd3 hkp hname hn2i
    refine ⟨_, unset_run_of_member hnp hm hkp hname hn2i, ?_, ?_, ?_, ?_⟩
    · exact dmem_false_iff.mpr (dlookup_ddel_self hnd1)
    · exact dmem_false_iff.mpr (dlookup_ddel_self hnd3)
    · exact dmem_false_iff.mpr (dlookup_ddel_self hnd2)
    · by_cases he : npids.erase pid = []
      · simp [he]
      · simp only [he, if_false, Option.getD_some]
        intro hc
        exact ((hnd.mem_erase_iff).mp hc).1 rfl

theorem unset_property_id_noop_or_removes_witness :
    unset_property_id exPid exStateDyn = .ok exStateDyn ∧
    ∃ s1, unset_property_id exDynPid exStateDyn = .ok s1 ∧
      dmem s1.kim_properties exDynPid = false ∧
      dmem s1.property_id_to_property_name exDynPid = false ∧
      dmem s1.property_name_to_property_id "delta" = false ∧
      exDynPid ∉ s1.new_property_ids.getD [] :=
  ⟨(unset_property_id_noop_or_removes exPid exStateDyn).1 (by decide),
   (unset_property_id_noop_or_removes exDynPid exStateDyn).2 [exDynPid]
     "delta" rfl (by decide) (by decide) (by decide) (by decide) (by decide)
     rfl rfl rfl⟩

/-- C9 (amended): both operations preserve the registry consistency
invariant (indices mutually inverse, id side coinciding with the
registered ids, dynamic set a duplicate-free subset), on success and on
every failure path — provided, for the file-registration branch, that the
short name derived from a file definition's id is not already present in
the name index. -/
theorem operations_preserve_registry_consistency :
    (∀ iidv pnv pio fs s out s1, RegInv s →
      (∀ q pd, dlookup fs q = some pd →
        dmem s.property_name_to_property_id
          (property_short_name pd.property_id) = false) →
      kim_property_create iidv pnv pio fs s = .ok (out, s1) → RegInv s1) ∧
    (∀ iidv pnv pio fs s e s1, RegInv s →
      kim_property_create iidv pnv pio fs s = .error (e, s1) → RegInv s1) ∧
    (∀ l iid s, RegInv s →
      ∃ l1 s1, kim_property_destroy_decoded l iid s = .ok (l1, s1) ∧
        RegInv s1) := by
  refine ⟨?_, ?_, ?_⟩
  · intro iidv pnv pio fs s out s1 hinv hfr h
    rcases create_ok_state h with rfl | ⟨pname, pd, hpnv, hlk, hfresh, rfl⟩
    · exact hinv
    · exact register_preserves_RegInv hinv hfresh (hfr _ _ hlk)
  · intro iidv pnv pio fs s e s1 hinv h
    exact (create_error_state h) ▸ hinv
  · intro l iid s hinv
    exact destroy_loop_preserves_RegInv iid l.length 0 l s hinv

theorem operations_preserve_registry_consistency_witness :
    ∃ l1 s1, kim_property_destroy_decoded [exRecA] 1 exState =
      .ok (l1, s1) ∧ RegInv s1 :=
  operations_preserve_registry_consistency.2.2 [exRecA] 1 exState
    (by unfold RegInv; decide)

/-- C9 counterexample: registering, from a file, a definition whose
derived short name collides with an already-registered name overwrites the
name index entry, after which the two indices are no longer inverse: the
id→name index still maps the old id to "foo" while name→id maps "foo" to
the new id. The operation succeeds, so "after every operation the indices
are mutually consistent" is false as stated. -/
theorem registry_name_collision_breaks_inverse_counterexample :
    kim_property_create (.int 1) (.str "f.edn") none exFSFoo exStateFoo =
      .ok ([{ property_id := exPidFoo2, instance_id := 1, rest := [] }],
        exStateFoo2) ∧
    dlookup exStateFoo2.property_id_to_property_name exPidFoo =
      some "foo" ∧
    dlookup exStateFoo2.property_name_to_property_id "foo" =
      some exPidFoo2 ∧
    exPidFoo2 ≠ exPidFoo ∧
    ¬ RegInv exStateFoo2 := by
  refine ⟨rfl, rfl, rfl, by decide, ?_⟩
  intro hinv
  obtain ⟨h1, h2, h3, h4, h5, h6, h7, h8, h9⟩ := hinv
  have hc := h8 (exPidFoo, "foo") (by decide)
  have hv : dlookup exStateFoo2.property_name_to_property_id "foo" =
      some exPidFoo2 := rfl
  rw [hv] at hc
  have : exPidFoo2 = exPidFoo := Option.some.inj hc
  exact absurd this (by decide)

/-- C10: in destroy, the integer type check on the instance-id argument is
performed before the empty-sentinel check: every non-integer instance-id
(a string or None — all the non-integer values of the model) raises the
input-type error for every input, in particular for each of the four empty
sentinels, instead of returning the canonical empty-collection text. -/
theorem destroy_type_check_precedes_sentinel_check
    (loadsF : String → Option (List PropertyInstanceRec))
    (dumpsF : List PropertyInstanceRec → String)
    (sv : String) (pi : Option String) (s : RegState) :
    kim_property_destroy loadsF dumpsF pi (.str sv) s =
      .error (.inputTypeError "instance_id", s) ∧
    kim_property_destroy loadsF dumpsF pi .pynone s =
      .error (.inputTypeError "instance_id", s) :=
  ⟨rfl, rfl⟩

end KimProp
